import Mathlib

/-!
# Verification of the PNGme chunk codec

Shallow embedding of `src/chunk_type.rs` and `src/chunk.rs` (a PNG-style
chunk codec: 4-byte type tags with case-encoded flags, and chunks with a
big-endian length prefix, tag, payload and CRC-32/IEEE trailer).

Bytes are modelled as `Nat` (with `< 256` hypotheses where a claim needs
them), `u32` values as `Nat` with explicit `% 2^32` where the Rust code
casts, and Rust slice operations as `List.take` / `List.drop`.  A Rust
`split_at` whose midpoint exceeds the slice length panics; the parser
embedding therefore returns a dedicated `panicked` outcome in exactly
those situations, so that "fails gracefully" claims can be settled.
-/

set_option maxRecDepth 100000

/-- `u8::is_ascii_lowercase`: `b'a'..=b'z'`. -/
def isAsciiLowercase (b : Nat) : Bool := 97 ≤ b && b ≤ 122

/-- `u8::is_ascii_uppercase`: `b'A'..=b'Z'`. -/
def isAsciiUppercase (b : Nat) : Bool := 65 ≤ b && b ≤ 90

/-- `struct ChunkType { bytes: [u8; 4] }` — the 4-byte array is modelled as a
`List Nat`; claims about "every 4-byte tag" carry a `length = 4` hypothesis. -/
structure ChunkType where
  bytes : List Nat
  deriving DecidableEq, Repr

namespace ChunkType

/-- `ChunkType::is_critical`: `self.bytes[0].is_ascii_uppercase()`. -/
def is_critical (t : ChunkType) : Bool := isAsciiUppercase (t.bytes.getD 0 0)

/-- `ChunkType::is_public`: `self.bytes[1].is_ascii_uppercase()`. -/
def is_public (t : ChunkType) : Bool := isAsciiUppercase (t.bytes.getD 1 0)

/-- `ChunkType::is_reserved_bit_valid`: `self.bytes[2].is_ascii_uppercase()`. -/
def is_reserved_bit_valid (t : ChunkType) : Bool :=
  isAsciiUppercase (t.bytes.getD 2 0)

/-- `ChunkType::is_safe_to_copy`: `self.bytes[3].is_ascii_lowercase()`. -/
def is_safe_to_copy (t : ChunkType) : Bool := isAsciiLowercase (t.bytes.getD 3 0)

/-- `ChunkType::is_valid`: every byte ASCII lowercase or uppercase, and the
reserved bit (byte 2) valid. -/
def is_valid (t : ChunkType) : Bool :=
  (t.bytes.all fun b => isAsciiLowercase b || isAsciiUppercase b)
    && t.is_reserved_bit_valid

/-- `TryFrom<[u8; 4]> for ChunkType`: always succeeds, stores the bytes. -/
def try_from (bytes : List Nat) : ChunkType := ⟨bytes⟩

end ChunkType

/-- `ChunkTypeError` from `chunk_type.rs`: a length error carrying the actual
byte count, and an invalid-character error. -/
inductive ChunkTypeError where
  | ByteLengthError (actual : Nat)
  | InvalidCharacter
  deriving DecidableEq, Repr

deriving instance DecidableEq for Except

/-- `FromStr for ChunkType` (`from_str`), the string given as its byte list.
Note the source returns `ByteLengthError(len)` in BOTH failure branches: the
`InvalidCharacter` variant exists but is never produced. -/
def ChunkType.from_str (byte_arr : List Nat) : Except ChunkTypeError ChunkType :=
  if byte_arr.length ≠ 4 then
    .error (.ByteLengthError byte_arr.length)
  else if ¬ (byte_arr.all fun b => isAsciiLowercase b || isAsciiUppercase b) then
    .error (.ByteLengthError byte_arr.length)
  else
    .ok (ChunkType.try_from
      [byte_arr.getD 0 0, byte_arr.getD 1 0, byte_arr.getD 2 0, byte_arr.getD 3 0])

example : ChunkType.from_str [82, 117, 83, 116] = .ok ⟨[82, 117, 83, 116]⟩ := by
  decide

example : ChunkType.from_str [82, 117, 49, 116] = .error (.ByteLengthError 4) := by
  decide

/-! ## CRC-32/IEEE (`crc::crc32::checksum_ieee`)

The bitwise reflected CRC-32 with polynomial `0xEDB88320`, initial value
`0xFFFFFFFF` and final XOR `0xFFFFFFFF` — the algorithm implemented (via a
lookup table) by the `crc` crate's `checksum_ieee`. -/

/-- One reflected CRC-32 bit step with the IEEE polynomial. -/
def crc32_bit (r : Nat) : Nat :=
  if r &&& 1 = 1 then (r >>> 1) ^^^ 0xEDB88320 else r >>> 1

/-- `n` CRC-32 bit steps. -/
def crc32_bits : Nat → Nat → Nat
  | 0, r => r
  | n + 1, r => crc32_bits n (crc32_bit r)

/-- Absorb one input byte into the CRC register (8 bit steps). -/
def crc32_byte (crc b : Nat) : Nat := crc32_bits 8 (crc ^^^ (b &&& 255))

/-- Absorb a byte list into the CRC register. -/
def crc32_update (crc : Nat) : List Nat → Nat
  | [] => crc
  | b :: rest => crc32_update (crc32_byte crc b) rest

/-- `crc::crc32::checksum_ieee`. -/
def checksum_ieee (bytes : List Nat) : Nat :=
  crc32_update 0xFFFFFFFF bytes ^^^ 0xFFFFFFFF

example : checksum_ieee [0x31, 0x32, 0x33, 0x34, 0x35, 0x36, 0x37, 0x38, 0x39]
    = 0xCBF43926 := by decide

/-! ## u32 big-endian byte conversions

`u32::to_be_bytes` / `u32::from_be_bytes`, modelled by their numeric
semantics: big-endian base-256 digit decomposition / recomposition. -/

/-- `u32::to_be_bytes` of a value already reduced below `2^32`. -/
def u32_to_be_bytes (n : Nat) : List Nat :=
  [n / 16777216 % 256, n / 65536 % 256, n / 256 % 256, n % 256]

/-- `u32::from_be_bytes` on a 4-byte array (modelled on the list's first four
entries). -/
def u32_from_be_bytes (l : List Nat) : Nat :=
  ((l.getD 0 0 * 256 + l.getD 1 0) * 256 + l.getD 2 0) * 256 + l.getD 3 0

/-! ## Chunk (`chunk.rs`) -/

/-- `struct Chunk { chunk_type: ChunkType, message_bytes: Vec<u8> }`. -/
structure Chunk where
  chunk_type : ChunkType
  message_bytes : List Nat
  deriving DecidableEq, Repr

/-- `ChunkError` from `chunk.rs`. -/
inductive ChunkError where
  | InvalidCrc (expected actual : Nat)
  | InputTooSmall
  | InvalidChunkType
  deriving DecidableEq, Repr

/-- Outcome of `Chunk::try_from(&[u8])`: success, a recoverable error, or a
Rust panic (an out-of-bounds `split_at`). -/
inductive ParseResult where
  | ok (c : Chunk)
  | err (e : ChunkError)
  | panicked
  deriving DecidableEq, Repr

namespace Chunk

/-- `Chunk::length`: payload byte count. -/
def length (c : Chunk) : Nat := c.message_bytes.length

/-- `Chunk::crc`: CRC-32/IEEE over the tag's 4 bytes followed by the payload. -/
def crc (c : Chunk) : Nat :=
  checksum_ieee (c.chunk_type.bytes ++ c.message_bytes)

/-- `Chunk::data`: the payload bytes. -/
def data (c : Chunk) : List Nat := c.message_bytes

/-- `Chunk::as_bytes`: payload length as big-endian u32 (the `as u32` cast is
the `% 2^32`), tag bytes, payload, big-endian CRC. -/
def as_bytes (c : Chunk) : List Nat :=
  u32_to_be_bytes (c.message_bytes.length % 4294967296)
    ++ c.chunk_type.bytes ++ c.data ++ u32_to_be_bytes c.crc

/-- Modelled from the spec: `Chunk::new(tag, payload)` is described in §4.2
("always succeeds; no validation of tag validity is enforced") and §6 but is
absent from the provided source files; it stores the tag and payload. -/
def new (t : ChunkType) (payload : List Nat) : Chunk := ⟨t, payload⟩

/-- `TryFrom<&[u8]> for Chunk` (`try_from` in `chunk.rs`).  Each
`split_at mid` is `take`/`drop`, except that Rust's `split_at` panics when
`mid` exceeds the slice length: those cases yield `.panicked`. -/
def try_from (bytes : List Nat) : ParseResult :=
  if bytes.length < 12 then .err .InputTooSmall
  else
    -- first 4 bytes is the length of the chunk
    let data_length := u32_from_be_bytes (bytes.take 4)
    let rest := bytes.drop 4
    -- next 4 bytes is the chunk type
    let chunk_type := ChunkType.try_from (rest.take 4)
    let rest := rest.drop 4
    if ¬ chunk_type.is_valid then .err .InvalidChunkType
    else if rest.length < data_length then .panicked
    else
      let message_bytes := rest.take data_length
      let rest := rest.drop data_length
      if rest.length < 4 then .panicked
      else
        let crc_bytes := rest.take 4
        let new : Chunk := ⟨chunk_type, message_bytes⟩
        let actual_crc := new.crc
        let expected_crc := u32_from_be_bytes crc_bytes
        if expected_crc ≠ actual_crc then .err (.InvalidCrc expected_crc actual_crc)
        else .ok new

end Chunk

/-- The repository's own fixture: tag `"RuSt"`. -/
def rustTagBytes : List Nat := [82, 117, 83, 116]

/-- The repository's own fixture: payload
`"This is where your secret message will be!"` as bytes. -/
def secretMessageBytes : List Nat :=
  [84, 104, 105, 115, 32, 105, 115, 32, 119, 104, 101, 114, 101, 32, 121,
   111, 117, 114, 32, 115, 101, 99, 114, 101, 116, 32, 109, 101, 115, 115,
   97, 103, 101, 32, 119, 105, 108, 108, 32, 98, 101, 33]

example : secretMessageBytes.length = 42 := by decide

example : checksum_ieee (rustTagBytes ++ secretMessageBytes) = 2882656334 := by
  decide

/-! ## CRC-32 state lemmas

Every CRC step is injective on the 32-bit register, so absorbing a changed
byte at any position yields a different final checksum. -/

theorem shiftRight_one_eq (r : Nat) : r >>> 1 = r / 2 := by
  rw [Nat.shiftRight_eq_div_pow, pow_one]

theorem and_255_eq_mod (b : Nat) : b &&& 255 = b % 256 := by
  have h : (255 : Nat) = 2 ^ 8 - 1 := by norm_num
  rw [h, Nat.and_pow_two_sub_one_eq_mod]

theorem xor_poly_high {x : Nat} (hx : x < 2147483648) :
    Nat.testBit (x ^^^ 0xEDB88320) 31 = true := by
  rw [Nat.testBit_xor]
  rw [Nat.testBit_eq_false_of_lt (show x < 2 ^ 31 by omega)]
  decide

theorem crc32_bit_lt {r : Nat} (h : r < 4294967296) : crc32_bit r < 4294967296 := by
  unfold crc32_bit
  have h1 : r >>> 1 < 4294967296 := by
    rw [shiftRight_one_eq]; omega
  split
  · have h2 : (4294967296 : Nat) = 2 ^ 32 := by norm_num
    rw [h2] at h1 ⊢
    exact Nat.xor_lt_two_pow h1 (by norm_num)
  · exact h1

theorem crc32_bit_inj {r s : Nat} (hr : r < 4294967296) (hs : s < 4294967296)
    (h : crc32_bit r = crc32_bit s) : r = s := by
  unfold crc32_bit at h
  rw [Nat.and_one_is_mod, Nat.and_one_is_mod, shiftRight_one_eq,
    shiftRight_one_eq] at h
  by_cases h1 : r % 2 = 1 <;> by_cases h2 : s % 2 = 1
  · rw [if_pos h1, if_pos h2] at h
    have h3 : r / 2 = s / 2 := by
      have h4 := congrArg (fun t => t ^^^ 0xEDB88320) h
      simpa [Nat.xor_cancel_right] using h4
    omega
  · rw [if_pos h1, if_neg h2] at h
    exfalso
    have h4 := congrArg (fun t => Nat.testBit t 31) h
    simp only [] at h4
    rw [xor_poly_high (by omega),
      Nat.testBit_eq_false_of_lt (show s / 2 < 2 ^ 31 by omega)] at h4
    exact Bool.true_eq_false.mp h4
  · rw [if_neg h1, if_pos h2] at h
    exfalso
    have h4 := congrArg (fun t => Nat.testBit t 31) h
    simp only [] at h4
    rw [xor_poly_high (by omega),
      Nat.testBit_eq_false_of_lt (show r / 2 < 2 ^ 31 by omega)] at h4
    exact Bool.false_eq_true.mp h4
  · rw [if_neg h1, if_neg h2] at h
    omega

theorem crc32_bits_lt : ∀ (n : Nat) {r : Nat}, r < 4294967296 →
    crc32_bits n r < 4294967296
  | 0, _, h => h
  | n + 1, _, h => crc32_bits_lt n (crc32_bit_lt h)

theorem crc32_bits_inj : ∀ (n : Nat) {r s : Nat}, r < 4294967296 →
    s < 4294967296 → crc32_bits n r = crc32_bits n s → r = s
  | 0, _, _, _, _, h => h
  | n + 1, _, _, hr, hs, h =>
    crc32_bit_inj hr hs (crc32_bits_inj n (crc32_bit_lt hr) (crc32_bit_lt hs) h)

theorem xor_byte_lt {crc b : Nat} (h : crc < 4294967296) :
    crc ^^^ (b &&& 255) < 4294967296 := by
  have hb : b &&& 255 < 4294967296 := by rw [and_255_eq_mod]; omega
  have h2 : (4294967296 : Nat) = 2 ^ 32 := by norm_num
  rw [h2] at h hb ⊢
  exact Nat.xor_lt_two_pow h hb

theorem crc32_byte_lt {crc : Nat} (h : crc < 4294967296) (b : Nat) :
    crc32_byte crc b < 4294967296 := by
  unfold crc32_byte
  exact crc32_bits_lt 8 (xor_byte_lt h)

theorem crc32_byte_inj_state {c1 c2 : Nat} (h1 : c1 < 4294967296)
    (h2 : c2 < 4294967296) (b : Nat)
    (h : crc32_byte c1 b = crc32_byte c2 b) : c1 = c2 := by
  unfold crc32_byte at h
  have h3 := crc32_bits_inj 8 (xor_byte_lt h1) (xor_byte_lt h2) h
  have h4 := congrArg (fun t => t ^^^ (b &&& 255)) h3
  simpa [Nat.xor_cancel_right] using h4

theorem crc32_byte_inj_byte {crc : Nat} (h : crc < 4294967296) {b1 b2 : Nat}
    (hb1 : b1 < 256) (hb2 : b2 < 256) (hne : b1 ≠ b2) :
    crc32_byte crc b1 ≠ crc32_byte crc b2 := by
  intro heq
  unfold crc32_byte at heq
  have h3 := crc32_bits_inj 8 (xor_byte_lt h) (xor_byte_lt h) heq
  have h4 := congrArg (fun t => crc ^^^ t) h3
  simp only [Nat.xor_cancel_left] at h4
  rw [and_255_eq_mod, and_255_eq_mod, Nat.mod_eq_of_lt hb1,
    Nat.mod_eq_of_lt hb2] at h4
  exact hne h4

theorem crc32_update_lt : ∀ (l : List Nat) {crc : Nat}, crc < 4294967296 →
    crc32_update crc l < 4294967296
  | [], _, h => h
  | b :: rest, _, h => crc32_update_lt rest (crc32_byte_lt h b)

theorem crc32_update_inj : ∀ (l : List Nat) {s1 s2 : Nat}, s1 < 4294967296 →
    s2 < 4294967296 → crc32_update s1 l = crc32_update s2 l → s1 = s2
  | [], _, _, _, _, h => h
  | b :: rest, _, _, h1, h2, h =>
    crc32_byte_inj_state h1 h2 b
      (crc32_update_inj rest (crc32_byte_lt h1 b) (crc32_byte_lt h2 b) h)

theorem crc32_update_append : ∀ (l1 l2 : List Nat) (s : Nat),
    crc32_update s (l1 ++ l2) = crc32_update (crc32_update s l1) l2
  | [], _, _ => rfl
  | b :: rest, l2, s => crc32_update_append rest l2 (crc32_byte s b)

theorem crc32_update_set_ne (msg : List Nat) :
    ∀ (i : Nat) {s c : Nat}, i < msg.length → s < 4294967296 → c < 256 →
    msg.getD i 0 < 256 → c ≠ msg.getD i 0 →
    crc32_update s (msg.set i c) ≠ crc32_update s msg := by
  induction msg with
  | nil => intro i s c hi; simp at hi
  | cons b rest ih =>
    intro i s c hi hs hc hb hne
    cases i with
    | zero =>
      simp only [List.set_cons_zero, List.getD_cons_zero] at hb hne
      intro heq
      have h1 : crc32_update (crc32_byte s c) rest
          = crc32_update (crc32_byte s b) rest := heq
      have h2 := crc32_update_inj rest (crc32_byte_lt hs c) (crc32_byte_lt hs b) h1
      exact crc32_byte_inj_byte hs hc hb hne h2
    | succ i =>
      simp only [List.set_cons_succ, List.getD_cons_succ] at hb hne ⊢
      simp only [List.length_cons, Nat.add_lt_add_iff_right] at hi
      intro heq
      have h1 : crc32_update (crc32_byte s b) (rest.set i c)
          = crc32_update (crc32_byte s b) rest := heq
      exact ih i hi (crc32_byte_lt hs b) hc hb hne h1

theorem checksum_ieee_lt (l : List Nat) : checksum_ieee l < 4294967296 := by
  unfold checksum_ieee
  have h1 : (4294967296 : Nat) = 2 ^ 32 := by norm_num
  rw [h1]
  exact Nat.xor_lt_two_pow (h1 ▸ crc32_update_lt l (by norm_num)) (by norm_num)

theorem getD_lt_256 {l : List Nat} (h : ∀ b ∈ l, b < 256) (i : Nat) :
    l.getD i 0 < 256 := by
  rcases Nat.lt_or_ge i l.length with hi | hi
  · rw [List.getD_eq_getElem?_getD, List.getElem?_eq_getElem hi]
    exact h _ (List.getElem_mem hi)
  · rw [List.getD_eq_getElem?_getD, List.getElem?_eq_none hi]
    norm_num

theorem u32_from_to {n : Nat} (h : n < 4294967296) :
    u32_from_be_bytes (u32_to_be_bytes n) = n := by
  unfold u32_from_be_bytes u32_to_be_bytes
  simp only [List.getD_cons_zero, List.getD_cons_succ]
  omega

theorem u32_to_from {a b c d : Nat} (ha : a < 256) (hb : b < 256) (hc : c < 256)
    (hd : d < 256) :
    u32_to_be_bytes (u32_from_be_bytes [a, b, c, d]) = [a, b, c, d] := by
  unfold u32_from_be_bytes u32_to_be_bytes
  simp only [List.getD_cons_zero, List.getD_cons_succ, List.cons.injEq, and_true]
  refine ⟨by omega, by omega, by omega, by omega⟩

theorem u32_from_lt {l : List Nat} (h : ∀ b ∈ l, b < 256) :
    u32_from_be_bytes l < 4294967296 := by
  unfold u32_from_be_bytes
  have h0 := getD_lt_256 h 0
  have h1 := getD_lt_256 h 1
  have h2 := getD_lt_256 h 2
  have h3 := getD_lt_256 h 3
  omega

theorem u32_to_be_bytes_length (n : Nat) : (u32_to_be_bytes n).length = 4 := rfl

theorem u32_to_be_bytes_mem {n b : Nat} (h : b ∈ u32_to_be_bytes n) : b < 256 := by
  unfold u32_to_be_bytes at h
  rcases h with _ | ⟨_, _ | ⟨_, _ | ⟨_, _ | ⟨_, h⟩⟩⟩⟩ <;>
    first
      | exact Nat.mod_lt _ (by norm_num)
      | exact absurd h (List.not_mem_nil _)

theorem xor_ne_of_ne {a b m : Nat} (h : a ≠ b) : a ^^^ m ≠ b ^^^ m := by
  intro heq
  apply h
  have h1 := congrArg (fun t => t ^^^ m) heq
  simpa [Nat.xor_cancel_right] using h1

theorem checksum_ieee_set_ne (pre msg : List Nat) (i c : Nat)
    (hi : i < msg.length) (hc : c < 256) (hb : msg.getD i 0 < 256)
    (hne : c ≠ msg.getD i 0) :
    checksum_ieee (pre ++ msg.set i c) ≠ checksum_ieee (pre ++ msg) := by
  unfold checksum_ieee
  apply xor_ne_of_ne
  rw [crc32_update_append, crc32_update_append]
  exact crc32_update_set_ne msg i hi (crc32_update_lt pre (by norm_num)) hc hb hne

/-! ## Claim theorems -/

/-- C6: parsing any buffer shorter than 12 bytes fails with the
`InputTooSmall` error (in particular it neither panics nor yields a chunk). -/
theorem try_from_short_input (bytes : List Nat) (h : bytes.length < 12) :
    Chunk.try_from bytes = .err .InputTooSmall := by
  unfold Chunk.try_from
  rw [if_pos h]

/-- C6 witness: an 11-byte buffer is rejected as too small. -/
theorem try_from_short_input_witness :
    Chunk.try_from [0, 0, 0, 0, 82, 117, 83, 116, 0, 0, 0] = .err .InputTooSmall :=
  try_from_short_input _ (by decide)

/-- C2: contrary to the claim, a 4-byte string containing a non-alphabetic
byte makes `from_str` fail with the LENGTH variant `ByteLengthError 4`; the
`InvalidCharacter` variant is never produced. -/
theorem from_str_nonalpha_yields_length_variant (s : List Nat)
    (h4 : s.length = 4)
    (hbad : (s.all fun b => isAsciiLowercase b || isAsciiUppercase b) = false) :
    ChunkType.from_str s = .error (.ByteLengthError 4) ∧
    ChunkType.from_str s ≠ .error .InvalidCharacter := by
  unfold ChunkType.from_str
  rw [if_neg (by omega), if_pos (by simp [hbad]), h4]
  exact ⟨rfl, by decide⟩

/-- C2 witness: `"Ru1t"` (digit at index 2) gives `ByteLengthError 4`. -/
theorem from_str_nonalpha_witness :
    ChunkType.from_str [82, 117, 49, 116] = .error (.ByteLengthError 4) :=
  (from_str_nonalpha_yields_length_variant [82, 117, 49, 116] (by decide)
    (by decide)).1

/-- C4: for every 4-byte tag, `is_valid` holds iff all bytes are ASCII
alphabetic and byte 2 is ASCII uppercase; `"RuSt"` is valid, `"Rust"` is
not. -/
theorem is_valid_characterization (t : ChunkType) (h : t.bytes.length = 4) :
    (t.is_valid = true ↔
      (∀ b ∈ t.bytes, (97 ≤ b ∧ b ≤ 122) ∨ (65 ≤ b ∧ b ≤ 90)) ∧
        (65 ≤ t.bytes.getD 2 0 ∧ t.bytes.getD 2 0 ≤ 90)) ∧
    ChunkType.is_valid ⟨[82, 117, 83, 116]⟩ = true ∧
    ChunkType.is_valid ⟨[82, 117, 115, 116]⟩ = false := by
  refine ⟨?_, by decide, by decide⟩
  unfold ChunkType.is_valid ChunkType.is_reserved_bit_valid isAsciiUppercase
    isAsciiLowercase
  simp [List.all_eq_true, Bool.and_eq_true, Bool.or_eq_true, decide_eq_true_eq]

/-- C4 witness at the tag for `"RuSt"`. -/
theorem is_valid_characterization_witness :
    ChunkType.is_valid ⟨[82, 117, 83, 116]⟩ = true :=
  (is_valid_characterization ⟨[82, 117, 83, 116]⟩ rfl).2.1

/-- C5: the per-byte flag mapping — byte 0 uppercase ↔ critical, byte 1
uppercase ↔ public, byte 2 uppercase ↔ reserved-bit valid, byte 3
lowercase ↔ safe to copy — and the concrete `"RuSt"` values. -/
theorem flag_bit_mapping (t : ChunkType) (h : t.bytes.length = 4) :
    (t.is_critical = true ↔ 65 ≤ t.bytes.getD 0 0 ∧ t.bytes.getD 0 0 ≤ 90) ∧
    (t.is_public = true ↔ 65 ≤ t.bytes.getD 1 0 ∧ t.bytes.getD 1 0 ≤ 90) ∧
    (t.is_reserved_bit_valid = true ↔
      65 ≤ t.bytes.getD 2 0 ∧ t.bytes.getD 2 0 ≤ 90) ∧
    (t.is_safe_to_copy = true ↔
      97 ≤ t.bytes.getD 3 0 ∧ t.bytes.getD 3 0 ≤ 122) ∧
    ChunkType.is_critical ⟨[82, 117, 83, 116]⟩ = true ∧
    ChunkType.is_public ⟨[82, 117, 83, 116]⟩ = false ∧
    ChunkType.is_reserved_bit_valid ⟨[82, 117, 83, 116]⟩ = true ∧
    ChunkType.is_safe_to_copy ⟨[82, 117, 83, 116]⟩ = true := by
  refine ⟨?_, ?_, ?_, ?_, by decide, by decide, by decide, by decide⟩ <;>
    simp [ChunkType.is_critical, ChunkType.is_public,
      ChunkType.is_reserved_bit_valid, ChunkType.is_safe_to_copy,
      isAsciiUppercase, isAsciiLowercase]

/-- C5 witness at the tag for `"RuSt"`. -/
theorem flag_bit_mapping_witness :
    ChunkType.is_critical ⟨[82, 117, 83, 116]⟩ = true :=
  (flag_bit_mapping ⟨[82, 117, 83, 116]⟩ rfl).2.2.2.2.1

/-- C1: contrary to the claim, an oversized declared length field does not
produce a recoverable bounds error — the `split_at` call panics.  For every
buffer of length ≥ 12 with a valid tag whose declared length exceeds the
bytes remaining for payload and CRC, `try_from` panics. -/
theorem parse_oversized_length_panics (bytes : List Nat)
    (h12 : 12 ≤ bytes.length)
    (hvalid : (ChunkType.try_from ((bytes.drop 4).take 4)).is_valid = true)
    (hover : bytes.length - 12 < u32_from_be_bytes (bytes.take 4)) :
    Chunk.try_from bytes = .panicked := by
  simp only [Chunk.try_from]
  rw [if_neg (by omega), if_neg (not_not_intro hvalid)]
  by_cases hcase :
      ((bytes.drop 4).drop 4).length < u32_from_be_bytes (bytes.take 4)
  · rw [if_pos hcase]
  · rw [if_neg hcase]
    simp only [List.length_drop] at hcase
    have h4 : (((bytes.drop 4).drop 4).drop
        (u32_from_be_bytes (bytes.take 4))).length < 4 := by
      simp only [List.length_drop]
      omega
    rw [if_pos h4]

/-- C1 witness: a 12-byte buffer declaring payload length 5 (tag `"RuSt"`)
makes the parser panic. -/
theorem parse_oversized_length_panics_witness :
    Chunk.try_from [0, 0, 0, 5, 82, 117, 83, 116, 0, 0, 0, 0] = .panicked :=
  parse_oversized_length_panics _ (by decide) (by decide) (by decide)

/-- Characterization of `try_from` on a well-formed frame: length prefix,
4-byte valid tag, payload, a stored CRC field, and arbitrary trailing
bytes.  The parse succeeds with the evident chunk exactly when the stored
CRC equals the computed one, and otherwise reports `InvalidCrc`. -/
theorem try_from_parts (t : ChunkType) (msg extra : List Nat) (stored : Nat)
    (hlen4 : t.bytes.length = 4) (hvalid : t.is_valid = true)
    (hmsglt : msg.length < 4294967296) (hstored : stored < 4294967296) :
    Chunk.try_from
        (u32_to_be_bytes msg.length ++ t.bytes ++ msg
          ++ u32_to_be_bytes stored ++ extra)
      = if stored = checksum_ieee (t.bytes ++ msg)
        then .ok ⟨t, msg⟩
        else .err (.InvalidCrc stored (checksum_ieee (t.bytes ++ msg))) := by
  have hassoc :
      u32_to_be_bytes msg.length ++ t.bytes ++ msg
          ++ u32_to_be_bytes stored ++ extra
        = u32_to_be_bytes msg.length
            ++ (t.bytes ++ (msg ++ (u32_to_be_bytes stored ++ extra))) := by
    simp [List.append_assoc]
  rw [hassoc]
  simp only [Chunk.try_from, Chunk.crc, ChunkType.try_from]
  rw [List.take_left' (u32_to_be_bytes_length msg.length),
    List.drop_left' (u32_to_be_bytes_length msg.length),
    List.take_left' hlen4, List.drop_left' hlen4,
    u32_from_to hmsglt,
    List.take_left' (rfl : msg.length = msg.length),
    List.drop_left' (rfl : msg.length = msg.length),
    List.take_left' (u32_to_be_bytes_length stored),
    u32_from_to hstored]
  rw [if_neg (by simp [List.length_append, u32_to_be_bytes_length, hlen4]; omega)]
  rw [if_neg (not_not_intro hvalid)]
  rw [if_neg (by simp [List.length_append, u32_to_be_bytes_length])]
  rw [if_neg (by simp [List.length_append, u32_to_be_bytes_length])]
  by_cases hc : stored = checksum_ieee (t.bytes ++ msg)
  · rw [if_neg (not_not_intro hc), if_pos hc]
  · rw [if_pos hc, if_neg hc]

/-- C9: a well-formed frame (valid 4-byte tag, consistent declared length)
whose stored CRC differs from the CRC-32/IEEE checksum of (tag ‖ payload)
is rejected with `InvalidCrc (stored, computed)`, and no chunk is
produced. -/
theorem parse_rejects_bad_crc (t : ChunkType) (msg extra : List Nat)
    (stored : Nat) (hlen4 : t.bytes.length = 4) (hvalid : t.is_valid = true)
    (hmsglt : msg.length < 4294967296) (hstored : stored < 4294967296)
    (hne : stored ≠ checksum_ieee (t.bytes ++ msg)) :
    Chunk.try_from
        (u32_to_be_bytes msg.length ++ t.bytes ++ msg
          ++ u32_to_be_bytes stored ++ extra)
      = .err (.InvalidCrc stored (checksum_ieee (t.bytes ++ msg))) ∧
    ∀ c : Chunk, Chunk.try_from
        (u32_to_be_bytes msg.length ++ t.bytes ++ msg
          ++ u32_to_be_bytes stored ++ extra) ≠ .ok c := by
  have h := try_from_parts t msg extra stored hlen4 hvalid hmsglt hstored
  rw [if_neg hne] at h
  refine ⟨h, fun c hc => ?_⟩
  rw [h] at hc
  exact ParseResult.noConfusion hc

/-- C9 witness: the repository's fixture chunk with its CRC decremented by
one is rejected with the checksum-mismatch error. -/
theorem parse_rejects_bad_crc_witness :
    Chunk.try_from
        (u32_to_be_bytes secretMessageBytes.length ++ rustTagBytes
          ++ secretMessageBytes ++ u32_to_be_bytes 2882656333 ++ [])
      = .err (.InvalidCrc 2882656333
          (checksum_ieee (rustTagBytes ++ secretMessageBytes))) :=
  (parse_rejects_bad_crc ⟨rustTagBytes⟩ secretMessageBytes [] 2882656333
    (by decide) (by decide) (by decide) (by decide) (by decide)).1

/-- C3 counterexample: the tag from text `"rust"` is accepted by `from_str`
(all bytes alphabetic), yet parsing the serialization of a chunk built from
it fails with `InvalidChunkType` (byte 2 is lowercase), so the round trip
does not hold for every textually constructed tag. -/
theorem roundtrip_fails_for_from_str_tag :
    ChunkType.from_str [114, 117, 115, 116] = .ok ⟨[114, 117, 115, 116]⟩ ∧
    Chunk.try_from (Chunk.new ⟨[114, 117, 115, 116]⟩ []).as_bytes
      = .err .InvalidChunkType := by decide

/-- C3 (amended): for every tag that additionally passes `is_valid` (all
four bytes ASCII alphabetic AND byte 2 uppercase) and every payload shorter
than 2^32 bytes, parsing the serialization succeeds and yields a chunk
equal to the original in tag bytes, payload and CRC. -/
theorem roundtrip_valid_tag (t : ChunkType) (msg : List Nat)
    (hlen4 : t.bytes.length = 4) (hvalid : t.is_valid = true)
    (hmsglt : msg.length < 4294967296) :
    Chunk.try_from (Chunk.new t msg).as_bytes = .ok (Chunk.new t msg) ∧
    (Chunk.new t msg).chunk_type.bytes = t.bytes ∧
    (Chunk.new t msg).data = msg ∧
    (Chunk.new t msg).crc = checksum_ieee (t.bytes ++ msg) := by
  refine ⟨?_, rfl, rfl, rfl⟩
  have h : (Chunk.new t msg).as_bytes
      = u32_to_be_bytes msg.length ++ t.bytes ++ msg
        ++ u32_to_be_bytes ((Chunk.new t msg).crc) ++ [] := by
    simp [Chunk.as_bytes, Chunk.new, Chunk.data, Nat.mod_eq_of_lt hmsglt]
  rw [h, try_from_parts t msg [] ((Chunk.new t msg).crc) hlen4 hvalid hmsglt
    (by exact checksum_ieee_lt _)]
  rw [if_pos (show (Chunk.new t msg).crc = checksum_ieee (t.bytes ++ msg)
    from rfl)]
  rfl

/-- C3 witness: the fixture tag and payload round-trip. -/
theorem roundtrip_valid_tag_witness :
    Chunk.try_from (Chunk.new ⟨rustTagBytes⟩ secretMessageBytes).as_bytes
      = .ok (Chunk.new ⟨rustTagBytes⟩ secretMessageBytes) :=
  (roundtrip_valid_tag ⟨rustTagBytes⟩ secretMessageBytes (by decide)
    (by decide) (by decide)).1

/-- C7: the chunk checksum is the CRC-32/IEEE checksum of the tag bytes
followed by the payload bytes; on the fixture it equals 2882656334; and
changing any single payload byte changes the checksum. -/
theorem crc_ieee_and_byte_sensitive :
    (∀ ch : Chunk,
      ch.crc = checksum_ieee (ch.chunk_type.bytes ++ ch.message_bytes)) ∧
    (Chunk.mk ⟨rustTagBytes⟩ secretMessageBytes).crc = 2882656334 ∧
    ∀ (t : ChunkType) (msg : List Nat) (i c : Nat), i < msg.length →
      c < 256 → msg.getD i 0 < 256 → c ≠ msg.getD i 0 →
      (Chunk.mk t (msg.set i c)).crc ≠ (Chunk.mk t msg).crc := by
  refine ⟨fun ch => rfl, by decide, ?_⟩
  intro t msg i c hi hc hb hne
  show checksum_ieee (t.bytes ++ msg.set i c) ≠ checksum_ieee (t.bytes ++ msg)
  exact checksum_ieee_set_ne t.bytes msg i c hi hc hb hne

/-- C7 witness: flipping the single payload byte 7 to 8 changes the CRC. -/
theorem crc_ieee_and_byte_sensitive_witness :
    (Chunk.mk ⟨rustTagBytes⟩ ([7].set 0 8)).crc
      ≠ (Chunk.mk ⟨rustTagBytes⟩ [7]).crc :=
  crc_ieee_and_byte_sensitive.2.2 ⟨rustTagBytes⟩ [7] 0 8 (by decide)
    (by decide) (by decide) (by decide)

theorem u32_to_be_bytes_mod (n : Nat) :
    u32_to_be_bytes (n % 4294967296) = u32_to_be_bytes n := by
  unfold u32_to_be_bytes
  simp only [List.cons.injEq, and_true]
  refine ⟨by omega, by omega, by omega, by omega⟩

/-- C8: serialization is the length as big-endian u32, the raw tag bytes,
the payload verbatim, and the big-endian CRC-32/IEEE checksum of
(tag ‖ payload); its total length is 12 plus the payload length. -/
theorem as_bytes_layout (c : Chunk) (h : c.chunk_type.bytes.length = 4) :
    c.as_bytes = u32_to_be_bytes c.length ++ c.chunk_type.bytes ++ c.data
        ++ u32_to_be_bytes (checksum_ieee (c.chunk_type.bytes ++ c.data)) ∧
    c.as_bytes.length = 12 + c.length := by
  have h1 : c.as_bytes
      = u32_to_be_bytes c.length ++ c.chunk_type.bytes ++ c.data
        ++ u32_to_be_bytes (checksum_ieee (c.chunk_type.bytes ++ c.data)) := by
    unfold Chunk.as_bytes Chunk.length Chunk.data Chunk.crc
    rw [u32_to_be_bytes_mod]
  refine ⟨h1, ?_⟩
  rw [h1]
  simp only [List.length_append, u32_to_be_bytes_length, h, Chunk.length,
    Chunk.data]
  omega

/-- C8 witness at the fixture chunk. -/
theorem as_bytes_layout_witness :
    (Chunk.mk ⟨rustTagBytes⟩ secretMessageBytes).as_bytes.length
      = 12 + (Chunk.mk ⟨rustTagBytes⟩ secretMessageBytes).length :=
  (as_bytes_layout (Chunk.mk ⟨rustTagBytes⟩ secretMessageBytes) rfl).2

theorem u32_to_from_list {l : List Nat} (h4 : l.length = 4)
    (hb : ∀ b ∈ l, b < 256) :
    u32_to_be_bytes (u32_from_be_bytes l) = l := by
  obtain _ | ⟨a, _ | ⟨b, _ | ⟨c, _ | ⟨d, tl⟩⟩⟩⟩ := l <;> simp at h4
  subst h4
  exact u32_to_from (hb a (by simp)) (hb b (by simp)) (hb c (by simp))
    (hb d (by simp))

set_option maxHeartbeats 4000000 in
/-- C10: if `try_from` succeeds on a byte buffer, serializing the parsed
chunk reproduces exactly the first `12 + N` bytes of the buffer (`N` the
payload length), and bytes beyond offset `12 + N` do not affect the
result: the truncated buffer with any trailing bytes appended parses to
the same chunk. -/
theorem parse_serialize_inverse (bytes : List Nat) (c : Chunk)
    (hbytes : ∀ b ∈ bytes, b < 256)
    (hok : Chunk.try_from bytes = .ok c) :
    c.as_bytes = bytes.take (12 + c.length) ∧
    ∀ extra : List Nat,
      Chunk.try_from (bytes.take (12 + c.length) ++ extra) = .ok c := by
  simp only [Chunk.try_from, ChunkType.try_from, Chunk.crc] at hok
  split at hok
  next => exact ParseResult.noConfusion hok
  next hlen =>
  split at hok
  next => exact ParseResult.noConfusion hok
  next hval =>
  split at hok
  next => exact ParseResult.noConfusion hok
  next hfit =>
  split at hok
  next => exact ParseResult.noConfusion hok
  next hfit4 =>
  split at hok
  next => exact ParseResult.noConfusion hok
  next hcrc =>
  injection hok with hceq
  subst hceq
  have f2 : u32_from_be_bytes (bytes.take 4) < 4294967296 :=
    u32_from_lt fun b h => hbytes b (List.mem_of_mem_take h)
  have f7 : ∀ b ∈ bytes.take 4, b < 256 :=
    fun b h => hbytes b (List.mem_of_mem_take h)
  have f6 : ∀ b ∈ (bytes.drop 4).take 4, b < 256 :=
    fun b h => hbytes b (List.mem_of_mem_drop (List.mem_of_mem_take h))
  have f8 : ∀ b ∈ (((bytes.drop 4).drop 4).drop
      (u32_from_be_bytes (bytes.take 4))).take 4, b < 256 :=
    fun b h => hbytes b (List.mem_of_mem_drop (List.mem_of_mem_drop
      (List.mem_of_mem_drop (List.mem_of_mem_take h))))
  have f10 : (bytes.take 4).length = 4 :=
    List.length_take_of_le (by omega)
  have f9 : ((bytes.drop 4).take 4).length = 4 := by
    apply List.length_take_of_le
    simp only [List.length_drop]
    omega
  have f4 : (((bytes.drop 4).drop 4).take
      (u32_from_be_bytes (bytes.take 4))).length
      = u32_from_be_bytes (bytes.take 4) :=
    List.length_take_of_le (Nat.le_of_not_lt hfit)
  have f5 : ((((bytes.drop 4).drop 4).drop
      (u32_from_be_bytes (bytes.take 4))).take 4).length = 4 :=
    List.length_take_of_le (Nat.le_of_not_lt hfit4)
  have f11 : u32_from_be_bytes ((((bytes.drop 4).drop 4).drop
        (u32_from_be_bytes (bytes.take 4))).take 4)
      = checksum_ieee ((bytes.drop 4).take 4
          ++ ((bytes.drop 4).drop 4).take (u32_from_be_bytes (bytes.take 4))) :=
    not_not.mp hcrc
  have f12 : u32_to_be_bytes (u32_from_be_bytes (bytes.take 4))
      = bytes.take 4 :=
    u32_to_from_list f10 f7
  have f13 : u32_to_be_bytes (u32_from_be_bytes ((((bytes.drop 4).drop 4).drop
        (u32_from_be_bytes (bytes.take 4))).take 4))
      = (((bytes.drop 4).drop 4).drop
          (u32_from_be_bytes (bytes.take 4))).take 4 :=
    u32_to_from_list f5 f8
  have hsplit : bytes
      = bytes.take 4 ++ ((bytes.drop 4).take 4
          ++ (((bytes.drop 4).drop 4).take (u32_from_be_bytes (bytes.take 4))
            ++ ((((bytes.drop 4).drop 4).drop
                  (u32_from_be_bytes (bytes.take 4))).take 4
              ++ ((((bytes.drop 4).drop 4).drop
                  (u32_from_be_bytes (bytes.take 4))).drop 4)))) := by
    rw [List.take_append_drop, List.take_append_drop, List.take_append_drop,
      List.take_append_drop]
  have hsplit2 : bytes
      = (bytes.take 4 ++ ((bytes.drop 4).take 4
          ++ (((bytes.drop 4).drop 4).take (u32_from_be_bytes (bytes.take 4))
            ++ ((((bytes.drop 4).drop 4).drop
                  (u32_from_be_bytes (bytes.take 4))).take 4))))
        ++ ((((bytes.drop 4).drop 4).drop
              (u32_from_be_bytes (bytes.take 4))).drop 4) := by
    conv_lhs => rw [hsplit]
    simp [List.append_assoc]
  have hpfxlen : (bytes.take 4 ++ ((bytes.drop 4).take 4
      ++ (((bytes.drop 4).drop 4).take (u32_from_be_bytes (bytes.take 4))
        ++ ((((bytes.drop 4).drop 4).drop
              (u32_from_be_bytes (bytes.take 4))).take 4)))).length
      = 12 + (((bytes.drop 4).drop 4).take
          (u32_from_be_bytes (bytes.take 4))).length := by
    simp only [List.length_append, f10, f9, f5]
    omega
  have htake : bytes.take (12 + (((bytes.drop 4).drop 4).take
        (u32_from_be_bytes (bytes.take 4))).length)
      = bytes.take 4 ++ ((bytes.drop 4).take 4
          ++ (((bytes.drop 4).drop 4).take (u32_from_be_bytes (bytes.take 4))
            ++ ((((bytes.drop 4).drop 4).drop
                  (u32_from_be_bytes (bytes.take 4))).take 4))) := by
    have h1 := @List.take_left' Nat _
      ((((bytes.drop 4).drop 4).drop
        (u32_from_be_bytes (bytes.take 4))).drop 4) _ hpfxlen
    rw [← hsplit2] at h1
    exact h1
  constructor
  · simp only [Chunk.as_bytes, Chunk.length, Chunk.data, Chunk.crc]
    rw [htake]
    rw [Nat.mod_eq_of_lt (by rw [f4]; exact f2)]
    rw [f4, f12, ← f11, f13]
    simp [List.append_assoc]
  · intro extra
    simp only [Chunk.length]
    rw [htake]
    have hframe : (bytes.take 4 ++ ((bytes.drop 4).take 4
        ++ (((bytes.drop 4).drop 4).take (u32_from_be_bytes (bytes.take 4))
          ++ ((((bytes.drop 4).drop 4).drop
                (u32_from_be_bytes (bytes.take 4))).take 4)))) ++ extra
        = u32_to_be_bytes (((bytes.drop 4).drop 4).take
              (u32_from_be_bytes (bytes.take 4))).length
            ++ (ChunkType.mk ((bytes.drop 4).take 4)).bytes
            ++ ((bytes.drop 4).drop 4).take (u32_from_be_bytes (bytes.take 4))
            ++ u32_to_be_bytes (u32_from_be_bytes ((((bytes.drop 4).drop 4).drop
                  (u32_from_be_bytes (bytes.take 4))).take 4))
            ++ extra := by
      rw [f4, f12, f13]
      simp [List.append_assoc]
    rw [hframe]
    rw [try_from_parts (ChunkType.mk ((bytes.drop 4).take 4))
      (((bytes.drop 4).drop 4).take (u32_from_be_bytes (bytes.take 4))) extra
      (u32_from_be_bytes ((((bytes.drop 4).drop 4).drop
        (u32_from_be_bytes (bytes.take 4))).take 4))
      f9 (not_not.mp hval) (by rw [f4]; exact f2) (u32_from_lt f8)]
    rw [if_pos f11]

/-- C10 witness: the fixture frame with two trailing junk bytes parses to
the fixture chunk, whose serialization is the frame without the junk. -/
theorem parse_serialize_inverse_witness :
    (Chunk.mk ⟨rustTagBytes⟩ secretMessageBytes).as_bytes
      = ([0, 0, 0, 42] ++ rustTagBytes ++ secretMessageBytes
          ++ [171, 209, 216, 78] ++ [9, 9]).take
          (12 + (Chunk.mk ⟨rustTagBytes⟩ secretMessageBytes).length) :=
  (parse_serialize_inverse
    ([0, 0, 0, 42] ++ rustTagBytes ++ secretMessageBytes
      ++ [171, 209, 216, 78] ++ [9, 9])
    (Chunk.mk ⟨rustTagBytes⟩ secretMessageBytes)
    (by decide) (by decide)).1
